import Mathlib

/-!
# logbucket: a counting log shipper

A shallow embedding of `internal/bucket/bucket.go` and `internal/params/parse.go`.

* Go strings are byte sequences: `GoString := List UInt8`; `line[1:]` is `List.drop 1`
  guarded by the bounds check of the Go slice expression.
* `map[string]int` is an association list with distinct keys.  Go does not fix the order in
  which `range` visits a map: `dump` follows the arrangement named by its environment.
* Go `int` and `uint64` are 64 bits wide (amd64/arm64): `b.buckets[k]++` wraps in two's
  complement, `bytesWritten += n` and the multiplications of `ParseMaxSize` wrap modulo `2^64`.
* The log directory is a map from each path in use to the content of its file.  Only this
  program changes it, so `os.Rename` and `os.Remove` fail exactly with `ENOENT`, and the open
  handle `currentFile` is identified with the path it was opened on (`rotate` closes it before
  renaming and reopens it afterwards).  At start-up `os.Stat` and `os.OpenFile` may fail for
  reasons outside that map (a missing or unwritable directory): `StartEnv` says whether they do.
* `path.Join` is modelled with its cleaning (`pathClean`).
* `log.Fatalf` and run-time panics end the process: operations return `Except Failure _`.
* The clock (`time.Now`), the number of bytes a `Write` accepts and the effect of the external
  compression program are inputs of the operations that consult them.
* The archiver goroutine `propagate` holds `rotateSync` until it is done; it only touches
  numbered files, which the control loop never reads or writes, so it is run either at an
  explicit `archived` event or, at the latest, when the next `rotate` blocks on the mutex.
-/

namespace Logbucket

/-- A Go string: an immutable sequence of bytes. -/
abbrev GoString := List UInt8

/-- The bytes of an ASCII literal. -/
def ascii (s : String) : GoString := s.toList.map (fun c => UInt8.ofNat c.toNat)

/-- How the process can end abnormally. -/
inductive Failure where
  | panic
  | fatal
  deriving DecidableEq, Repr

/-! ## Formatting (`fmt`, `strconv`) -/

/-- Decimal digits of `n`, most significant first, pushed in front of `acc`. -/
def fmtNatAux : Nat → Nat → GoString → GoString
  | 0, _, acc => acc
  | fuel + 1, n, acc =>
    let d : UInt8 := UInt8.ofNat (48 + n % 10)
    if n / 10 = 0 then d :: acc else fmtNatAux fuel (n / 10) (d :: acc)

/-- The verb `%d` applied to a non-negative integer. -/
def fmtNat (n : Nat) : GoString := fmtNatAux (n + 1) n []

/-- The verb `%d` applied to an `int` or `int64`. -/
def fmtInt (v : Int) : GoString :=
  if v < 0 then 45 :: fmtNat v.natAbs else fmtNat v.toNat

/-- The value of a run of decimal digits. -/
def decVal (ds : GoString) : Nat :=
  ds.foldl (fun a d => 10 * a + (d.toNat - 48)) 0

/-! ## Command-line sizes (`internal/params/parse.go`) -/

/-- The class `\d` of the regular expression: an ASCII digit. -/
def isDigit (c : UInt8) : Bool := decide (48 ≤ c.toNat) && decide (c.toNat ≤ 57)

/-- The class `[a-z]` of the regular expression. -/
def isLower (c : UInt8) : Bool := decide (97 ≤ c.toNat) && decide (c.toNat ≤ 122)

/-- The call `parser.FindStringSubmatch(s)` for the anchored expression `^(\d+)([a-z]?)$`:
the two groups of the match, `none` for `nil`.  The greedy `\d+` takes the longest run of
digits; what is left must be empty or one lower-case letter. -/
def parserFind (s : GoString) : Option (GoString × GoString) :=
  let num := s.takeWhile isDigit
  if num = [] then none
  else
    match s.dropWhile isDigit with
    | [] => some (num, [])
    | [c] => if isLower c then some (num, [c]) else none
    | _ :: _ :: _ => none

/-- The call `strconv.Atoi` on a run of decimal digits, its error discarded: a value that does
not fit an `int` comes back as the largest `int`. -/
def atoi (ds : GoString) : Nat := min (decVal ds) (2 ^ 63 - 1)

/-- The function `splitNumSuffix`. -/
def splitNumSuffix (s : GoString) : Nat × UInt8 × Bool :=
  if s.length = 0 then (0, 0, false)
  else
    match parserFind s with
    | none => (0, 0, false)
    | some (num, []) => (atoi num, 0, true)
    | some (num, c :: _) => (atoi num, c, true)

/-- The function `ParseMaxSize`; the products are taken in `uint64`. -/
def ParseMaxSize (s : GoString) : Nat × Bool :=
  match splitNumSuffix s with
  | (_, _, false) => (0, false)
  | (value, suffix, true) =>
    if suffix = 98 ∨ suffix = 0 then (value % 2 ^ 64, true)
    else if suffix = 107 then (value * 1024 % 2 ^ 64, true)
    else if suffix = 109 then (value * 1024 % 2 ^ 64 * 1024 % 2 ^ 64, true)
    else if suffix = 103 then (value * 1024 % 2 ^ 64 * 1024 % 2 ^ 64 * 1024 % 2 ^ 64, true)
    else (0, false)

/-- The size strings of the specification: a non-empty run of decimal digits, then nothing or
one of the letters `b`, `k`, `m`, `g`. -/
def SizeForm (s : GoString) : Prop :=
  ∃ ds sfx : GoString, s = ds ++ sfx ∧ ds ≠ [] ∧ (∀ d ∈ ds, isDigit d = true) ∧
    (sfx = [] ∨ sfx = ascii "b" ∨ sfx = ascii "k" ∨ sfx = ascii "m" ∨ sfx = ascii "g")

/-- The number of bytes the specification gives to a suffix: 1 for `b` or none, 1024 for `k`,
1024² for `m`, 1024³ for `g`. -/
def unitBytes (sfx : GoString) : Nat :=
  if sfx = ascii "k" then 1024
  else if sfx = ascii "m" then 1024 ^ 2
  else if sfx = ascii "g" then 1024 ^ 3
  else 1

/-! ## The aggregator table -/

/-- The type `map[string]int`. -/
abbrev Table := List (GoString × Int)

/-- Reduction of an integer to the range of a 64-bit `int`. -/
def wrapInt (x : Int) : Int := (x + 2 ^ 63) % 2 ^ 64 - 2 ^ 63

/-- The entry of key `k`, if the map has one. -/
def mapFind : Table → GoString → Option Int
  | [], _ => none
  | (k', v) :: m, k => if k' = k then some v else mapFind m k

/-- The expression `m[k]`: the zero value when the key is missing. -/
def mapGet (m : Table) (k : GoString) : Int := (mapFind m k).getD 0

/-- The assignment `m[k] = v`. -/
def mapSet : Table → GoString → Int → Table
  | [], k, v => [(k, v)]
  | (k', v') :: m, k, v => if k' = k then (k', v) :: m else (k', v') :: mapSet m k v

/-- The statement `m[k]++`. -/
def mapIncr (m : Table) (k : GoString) : Table := mapSet m k (wrapInt (mapGet m k + 1))

/-! ## The log directory -/

/-- The files of the log directory: content by path. -/
abbrev FS := GoString → Option GoString

/-- Result of `os.Remove`: the path is gone (a missing file is `ENOENT`, which every caller
ignores). -/
def fsRemove (fs : FS) (p : GoString) : FS := fun q => if q = p then none else fs q

/-- Result of `os.Rename`: `none` is `ENOENT` (no file at `src`). -/
def fsRename (fs : FS) (src dst : GoString) : Option FS :=
  match fs src with
  | none => none
  | some c => some (fun q => if q = dst then some c else if q = src then none else fs q)

/-- Result of `os.OpenFile(p, O_APPEND|O_CREATE|O_WRONLY, 0644)`: an empty file is created when
none exists. -/
def fsCreate (fs : FS) (p : GoString) : FS :=
  fun q => if q = p then some ((fs p).getD []) else fs q

/-- Bytes appended through a handle opened with `O_APPEND` on `p`. -/
def fsAppend (fs : FS) (p : GoString) (d : GoString) : FS :=
  fun q => if q = p then (fs p).map (fun c => c ++ d) else fs q

/-- The elements of a path: the runs of bytes between its slashes. -/
def splitSlash : GoString → List GoString
  | [] => [[]]
  | c :: s =>
    if c = 47 then [] :: splitSlash s
    else
      match splitSlash s with
      | [] => [[c]]
      | e :: es => (c :: e) :: es

/-- One element read by `path.Clean`; `kept` holds the elements retained so far, the last one
first.  Empty elements and `.` are dropped; `..` removes the element before it, is dropped at
the root, and is retained at the front of a path that is not rooted. -/
def cleanStep (rooted : Bool) (kept : List GoString) (e : GoString) : List GoString :=
  if e = [] ∨ e = ascii "." then kept
  else if e = ascii ".." then
    match kept with
    | top :: rest => if top = ascii ".." then e :: kept else rest
    | [] => if rooted then [] else [e]
  else e :: kept

/-- Elements written one after the other with a slash between them. -/
def joinSlash : List GoString → GoString
  | [] => []
  | [e] => e
  | e :: es => e ++ ascii "/" ++ joinSlash es

/-- The function `path.Clean`. -/
def pathClean (p : GoString) : GoString :=
  if p = [] then ascii "."
  else
    let rooted := decide (p.head? = some 47)
    let kept := ((splitSlash p).foldl (cleanStep rooted) []).reverse
    if rooted then ascii "/" ++ joinSlash kept
    else if kept = [] then ascii "." else joinSlash kept

/-- The call `path.Join(dir, file)`: empty arguments are left out, the others are joined by a
slash and the result is cleaned. -/
def pathJoin (dir file : GoString) : GoString :=
  if dir = [] then (if file = [] then [] else pathClean file)
  else if file = [] then pathClean dir
  else pathClean (dir ++ ascii "/" ++ file)

/-! ## The bucket -/

/-- The struct `Bucket`, together with the directory it works on.  `DumpInterval`, `LineChan`
and `stopChan` are the sources of the events of the loop; `buf` is local to `dump`. -/
structure Bucket where
  LogPath : GoString
  LogName : GoString
  MaxSize : Nat
  RotateCount : Int
  LogExtension : GoString
  CompressedExtension : GoString
  CompressProgPath : GoString
  buckets : Table
  mainLog : GoString
  bytesWritten : Nat
  /-- Path on which the open handle was opened. -/
  currentFile : GoString
  /-- The mutex: `some tmp` while the archiver started for `tmp` has not finished. -/
  rotateSync : Option GoString
  fs : FS

/-- The name `fmt.Sprintf("%s.%d.%s", b.LogName, i, suffix)` inside the log directory. -/
def Bucket.numbered (b : Bucket) (i : Int) (suffix : GoString) : GoString :=
  pathJoin b.LogPath (b.LogName ++ ascii "." ++ fmtInt i ++ ascii "." ++ suffix)

/-- The name `fmt.Sprintf("%s.%s", b.LogName, b.LogExtension)` inside the log directory. -/
def Bucket.mainName (b : Bucket) : GoString :=
  pathJoin b.LogPath (b.LogName ++ ascii "." ++ b.LogExtension)

/-- The suffix of the shifted generations chosen at the top of `propagate`. -/
def Bucket.suffix (b : Bucket) : GoString :=
  if b.CompressProgPath ≠ [] then b.LogExtension ++ ascii "." ++ b.CompressedExtension
  else b.LogExtension

/-- The log name and the extensions are plain file names: there is no slash in them, and the
log name is neither empty (`main` refuses that) nor `.`. -/
abbrev Bucket.PlainNames (b : Bucket) : Prop :=
  (47 : UInt8) ∉ b.LogName ∧ (47 : UInt8) ∉ b.LogExtension ∧
    (47 : UInt8) ∉ b.CompressedExtension ∧ b.LogName ≠ [] ∧ b.LogName ≠ ascii "."

/-- The loop of `propagate`, `for i := RotateCount-1; i >= 1; i--`, with `i` renames left:
generation `i` moves to `i+1`, a missing source being skipped. -/
def shiftLoop (b : Bucket) : Nat → FS → FS
  | 0, fs => fs
  | i + 1, fs =>
    let src := b.numbered ((i : Int) + 1) b.suffix
    let dst := b.numbered ((i : Int) + 1 + 1) b.suffix
    shiftLoop b i ((fsRename fs src dst).getD fs)

/-- The effect of running the external compression program on a file of the directory. -/
abbrev Compressor := GoString → FS → FS

/-- The method `propagate`. -/
def propagate (compress : Compressor) (b : Bucket) (tmpName : GoString) :
    Except Failure Bucket :=
  let lastLog := b.numbered b.RotateCount b.suffix
  let fs1 := fsRemove b.fs lastLog
  let fs2 := shiftLoop b (b.RotateCount - 1).toNat fs1
  let firstLog := b.numbered 1 b.LogExtension
  match fsRename fs2 tmpName firstLog with
  | none => .error .fatal
  | some fs3 =>
    let fs4 := if b.CompressProgPath ≠ [] then compress firstLog fs3 else fs3
    .ok { b with fs := fs4, rotateSync := none }

/-- The archiver goroutine runs to completion, if one is pending. -/
def archive (compress : Compressor) (b : Bucket) : Except Failure Bucket :=
  match b.rotateSync with
  | none => .ok b
  | some tmp => propagate compress b tmp

/-- The method `rotate`, called at Unix time `now`. -/
def rotate (compress : Compressor) (now : Int) (b : Bucket) : Except Failure Bucket :=
  match archive compress b with
  | .error e => .error e
  | .ok b0 =>
    let tmpName := b0.numbered now b0.LogExtension
    match fsRename b0.fs b0.mainLog tmpName with
    | none => .error .fatal
    | some fs1 =>
      let b1 : Bucket :=
        { b0 with fs := fsCreate fs1 b0.mainLog, currentFile := b0.mainLog, bytesWritten := 0 }
      if b1.RotateCount = 0 then
        .ok { b1 with fs := fsRemove b1.fs tmpName, rotateSync := none }
      else
        .ok { b1 with rotateSync := some tmpName }

/-- What the environment contributes to one call of `dump`: the order in which `range` visits
the map, the current time formatted as RFC 3339 in UTC, the Unix time read by `rotate`, and how
many bytes the write to the file accepts before it stops. -/
structure Flush where
  order : Table
  curTime : GoString
  now : Int
  accept : Nat

/-- One line written by the `Fprintf` of `dump`. -/
def dumpLine (curTime : GoString) (kv : GoString × Int) : GoString :=
  ascii "\x7b\"count\":" ++ fmtInt kv.2 ++ ascii ",\"ts\":\"" ++ curTime ++ ascii "\"," ++ kv.1
    ++ ascii "\n"

/-- The entries of the map in the order in which `range` visits them: each entry once.  The
order named by the environment is followed when it is an arrangement of the entries of the map;
any arrangement can be named. -/
def rangeOrder (f : Flush) (m : Table) : Table := if f.order.Perm m then f.order else m

/-- The buffer filled by the loop of `dump`. -/
def dumpBuf (f : Flush) (m : Table) : GoString :=
  ((rangeOrder f m).map (dumpLine f.curTime)).flatten

/-- The number `n` returned by `b.buf.WriteTo(b.currentFile)`. -/
def written (f : Flush) (m : Table) : Nat := min f.accept (dumpBuf f m).length

/-- Lines 94 to 103 of `dump`: fill the buffer, write it, account for the bytes written. -/
def dumpWrite (f : Flush) (b : Bucket) : Bucket :=
  { b with
    fs := fsAppend b.fs b.currentFile ((dumpBuf f b.buckets).take (written f b.buckets)),
    bytesWritten := (b.bytesWritten + written f b.buckets) % 2 ^ 64 }

/-- The method `dump`. -/
def dump (compress : Compressor) (f : Flush) (rot : Bool) (b : Bucket) :
    Except Failure Bucket :=
  let b1 := dumpWrite f b
  if rot && decide (b1.bytesWritten ≥ b1.MaxSize) then
    match rotate compress f.now b1 with
    | .error e => .error e
    | .ok b2 => .ok { b2 with buckets := [] }
  else
    .ok { b1 with buckets := [] }

/-- The statement `b.buckets[line[1:]]++`; slicing an empty string at 1 panics. -/
def record (line : GoString) (b : Bucket) : Except Failure Bucket :=
  if line.length < 1 then .error .panic
  else .ok { b with buckets := mapIncr b.buckets (line.drop 1) }

/-- What the operating system answers while `Start` prepares the active file. -/
structure StartEnv where
  /-- Unix time read by `rotate`, if a rotation is made. -/
  now : Int
  /-- The call `os.Stat` fails with an error other than `ENOENT`. -/
  statErr : Bool
  /-- The call `os.OpenFile` fails, for instance because the log directory is missing or cannot
  be written. -/
  openErr : Bool

/-- The part of `Start` before the loop. -/
def startInit (compress : Compressor) (env : StartEnv) (b : Bucket) : Except Failure Bucket :=
  let b0 : Bucket := { b with buckets := [], mainLog := b.mainName }
  if env.statErr then .error .fatal
  else
    match b0.fs b0.mainLog with
    | none =>
      if env.openErr then .error .fatal
      else
        .ok { b0 with fs := fsCreate b0.fs b0.mainLog, currentFile := b0.mainLog,
                      bytesWritten := 0 }
    | some c =>
      if env.openErr then .error .fatal
      else
        let b1 : Bucket := { b0 with currentFile := b0.mainLog, bytesWritten := c.length }
        if b1.bytesWritten ≥ b1.MaxSize then rotate compress env.now b1 else .ok b1

/-- What the `select` of the loop can receive, and the completion of the archiver. -/
inductive Event where
  | line (l : GoString)
  | tick (f : Flush)
  | stop (f : Flush)
  | archived

/-- One iteration of the loop of `Start`; the flag tells whether the loop returned. -/
def step (compress : Compressor) (b : Bucket) : Event → Except Failure (Bucket × Bool)
  | .line l => (record l b).map (fun b' => (b', false))
  | .tick f => (dump compress f true b).map (fun b' => (b', false))
  | .stop f => (dump compress f false b).map (fun b' => (b', true))
  | .archived => (archive compress b).map (fun b' => (b', false))

/-- The loop of `Start` over the events that arrive, until it returns. -/
def loop (compress : Compressor) : Bucket → List Event → Except Failure (Bucket × Bool)
  | b, [] => .ok (b, false)
  | b, e :: es =>
    match step compress b e with
    | .error err => .error err
    | .ok (b', true) => .ok (b', true)
    | .ok (b', false) => loop compress b' es

/-- The method `Start`. -/
def Start (compress : Compressor) (env : StartEnv) (b : Bucket) (es : List Event) :
    Except Failure (Bucket × Bool) :=
  match startInit compress env b with
  | .error e => .error e
  | .ok b' => loop compress b' es

/-- One rotation round: the bytes `r.1` reach the active file, `rotate` runs at Unix time `r.2`,
and the archiver it starts runs to completion. -/
def round (compress : Compressor) (b : Bucket) (r : GoString × Int) : Except Failure Bucket :=
  match rotate compress r.2 { b with fs := fsAppend b.fs b.currentFile r.1 } with
  | .error e => .error e
  | .ok b1 => archive compress b1

/-- Successive rotation rounds. -/
def rounds (compress : Compressor) : Bucket → List (GoString × Int) → Except Failure Bucket
  | b, [] => .ok b
  | b, r :: rs =>
    match round compress b r with
    | .error e => .error e
    | .ok b' => rounds compress b' rs

/-! ## Sample runs -/

/-- A compression program that cannot be started, or that exits with an error before it touches
the file: the directory stays as it was. -/
def failedCompressor : Compressor := fun _ fs => fs

/-- A compression program that succeeds in the manner of `xz`: the file is replaced by one
under the added extension `xz`, whose bytes stand for the compressed ones. -/
def movingCompressor : Compressor := fun p fs =>
  match fs p with
  | none => fs
  | some c => fun q => if q = p ++ ascii ".xz" then some c else if q = p then none else fs q

/-- A start-up in which `os.Stat` and `os.OpenFile` meet no error. -/
def quietStart : StartEnv := { now := 1699999000, statErr := false, openErr := false }

/-- A bucket as `main` builds it: directory `/l`, name `ev`, extension `log`, threshold 10 bytes,
two generations kept, no compressor; the directory is empty. -/
def sample : Bucket :=
  { LogPath := ascii "/l", LogName := ascii "ev", MaxSize := 10, RotateCount := 2,
    LogExtension := ascii "log", CompressedExtension := ascii "xz", CompressProgPath := [],
    buckets := [], mainLog := [], bytesWritten := 0, currentFile := [], rotateSync := none,
    fs := fun _ => none }

/-- The sample when `Start` enters its loop: the active file has been created. -/
def started : Bucket :=
  { sample with
    mainLog := sample.mainName, currentFile := sample.mainName,
    fs := fsCreate sample.fs sample.mainName }

/-- The same with `/usr/bin/xz` configured as compressor. -/
def startedXz : Bucket := { started with CompressProgPath := ascii "/usr/bin/xz" }

/-- The same with a threshold of 1000 bytes. -/
def startedRoomy : Bucket := { started with MaxSize := 1000 }

/-- Three rotation rounds with contents `R1`, `R2`, `R3`. -/
def rounds3 : List (GoString × Int) :=
  [(ascii "R1", 1700000000), (ascii "R2", 1700000060), (ascii "R3", 1700000120)]

/-- The line `\x7b"x":5` received three times. -/
def lines3 : List GoString :=
  [ascii "\x7b\"x\":5", ascii "\x7b\"x\":5", ascii "\x7b\"x\":5"]

/-- The flush of the table that holds the key `"x":5` with count 3, fully written. -/
def flush3 : Flush :=
  { order := [(ascii "\"x\":5", 3)], curTime := ascii "2024-05-01T12:00:00Z",
    now := 1700000000, accept := 4096 }

/-- The started sample after the three lines. -/
def recorded3 : Bucket := { started with buckets := [(ascii "\"x\":5", 3)] }

/-- The same table under a threshold of 1000 bytes. -/
def recordedRoomy : Bucket := { startedRoomy with buckets := [(ascii "\"x\":5", 3)] }

/-- The flush of the table that holds the key `"a":1` once; `accept` bytes reach the file. -/
def flushA (accept : Nat) : Flush :=
  { order := [(ascii "\"a\":1", 1)], curTime := ascii "2024-05-01T12:00:00Z",
    now := 1700000000, accept := accept }

/-- The started sample after the single line `\x7b"a":1`. -/
def recordedA : Bucket := { started with buckets := [(ascii "\"a\":1", 1)] }

/-! # Lemmas -/

theorem takeWhile_append_stop {α : Type} (p : α → Bool) (ds sfx : List α)
    (hds : ∀ d ∈ ds, p d = true) (hs : ∀ c ∈ sfx.head?, p c = false) :
    (ds ++ sfx).takeWhile p = ds ∧ (ds ++ sfx).dropWhile p = sfx := by
  induction ds with
  | nil =>
    cases sfx with
    | nil => simp
    | cons c t =>
      have hc : p c = false := hs c (by simp)
      simp [List.takeWhile, List.dropWhile, hc]
  | cons d ds ih =>
    have hd : p d = true := hds d (by simp)
    have := ih (fun x hx => hds x (by simp [hx]))
    simp [List.takeWhile, List.dropWhile, hd, this]

theorem parserFind_append (ds sfx : GoString) (hne : ds ≠ [])
    (hds : ∀ d ∈ ds, isDigit d = true)
    (hs : sfx = [] ∨ ∃ c, sfx = [c] ∧ isLower c = true) :
    parserFind (ds ++ sfx) = some (ds, sfx) := by
  have hstop : ∀ c ∈ sfx.head?, isDigit c = false := by
    rcases hs with rfl | ⟨c, rfl, hc⟩
    · simp
    · intro x hx
      simp at hx
      subst hx
      simp [isLower] at hc
      simp [isDigit]
      omega
  obtain ⟨h1, h2⟩ := takeWhile_append_stop isDigit ds sfx hds hstop
  unfold parserFind
  simp only [h1, h2, hne, if_false]
  rcases hs with rfl | ⟨c, rfl, hc⟩
  · rfl
  · simp [hc]

theorem parserFind_some (s num suf : GoString) (h : parserFind s = some (num, suf)) :
    s = num ++ suf ∧ num ≠ [] ∧ (∀ d ∈ num, isDigit d = true) ∧
      (suf = [] ∨ ∃ c, suf = [c] ∧ isLower c = true) := by
  unfold parserFind at h
  have hsplit : s.takeWhile isDigit ++ s.dropWhile isDigit = s := List.takeWhile_append_dropWhile _ _
  have hall : ∀ d ∈ s.takeWhile isDigit, isDigit d = true := fun d hd => List.mem_takeWhile_imp hd
  by_cases hnum : s.takeWhile isDigit = []
  · simp [hnum] at h
  · simp only [hnum, if_false] at h
    cases hrest : s.dropWhile isDigit with
    | nil =>
      rw [hrest] at h hsplit
      simp at h
      obtain ⟨rfl, rfl⟩ := h
      exact ⟨hsplit.symm, hnum, hall, Or.inl rfl⟩
    | cons c t =>
      cases t with
      | nil =>
        rw [hrest] at h hsplit
        by_cases hc : isLower c = true
        · simp [hc] at h
          obtain ⟨rfl, rfl⟩ := h
          exact ⟨hsplit.symm, hnum, hall, Or.inr ⟨c, rfl, hc⟩⟩
        · simp [hc] at h
      | cons c2 t2 =>
        rw [hrest] at h
        simp at h

theorem ParseMaxSize_of_form (ds sfx : GoString) (hne : ds ≠ [])
    (hds : ∀ d ∈ ds, isDigit d = true)
    (hs : sfx = [] ∨ sfx = ascii "b" ∨ sfx = ascii "k" ∨ sfx = ascii "m" ∨ sfx = ascii "g") :
    ParseMaxSize (ds ++ sfx) = (atoi ds * unitBytes sfx % 2 ^ 64, true) := by
  have hfind : parserFind (ds ++ sfx) = some (ds, sfx) := by
    apply parserFind_append ds sfx hne hds
    rcases hs with rfl | rfl | rfl | rfl | rfl
    · exact Or.inl rfl
    · exact Or.inr ⟨98, by decide, by decide⟩
    · exact Or.inr ⟨107, by decide, by decide⟩
    · exact Or.inr ⟨109, by decide, by decide⟩
    · exact Or.inr ⟨103, by decide, by decide⟩
  have hlen : (ds ++ sfx).length ≠ 0 := by
    cases ds with
    | nil => exact absurd rfl hne
    | cons d t => simp
  unfold ParseMaxSize splitNumSuffix
  rw [if_neg hlen, hfind]
  rcases hs with rfl | rfl | rfl | rfl | rfl
  · simp [unitBytes, ascii]
  · simp [unitBytes, ascii]
  · simp [unitBytes, ascii]
  · simp [unitBytes, ascii]
    omega
  · simp [unitBytes, ascii]
    omega

theorem ParseMaxSize_ok_form (s : GoString) (h : (ParseMaxSize s).2 = true) : SizeForm s := by
  unfold ParseMaxSize splitNumSuffix at h
  by_cases hlen : s.length = 0
  · simp [hlen] at h
  · rw [if_neg hlen] at h
    cases hfind : parserFind s with
    | none => simp [hfind] at h
    | some r =>
      obtain ⟨num, suf⟩ := r
      obtain ⟨hs, hne, hds, hsuf⟩ := parserFind_some s num suf hfind
      rw [hfind] at h
      refine ⟨num, suf, hs, hne, hds, ?_⟩
      rcases hsuf with rfl | ⟨c, rfl, hc⟩
      · exact Or.inl rfl
      · right
        simp only at h
        by_cases h1 : c = 98
        · subst h1; left; decide
        by_cases h2 : c = 107
        · subst h2; right; left; decide
        by_cases h3 : c = 109
        · subst h3; right; right; left; decide
        by_cases h4 : c = 103
        · subst h4; right; right; right; decide
        have h0 : c ≠ 0 := by
          rintro rfl
          simp [isLower] at hc
        simp [h1, h2, h3, h4, h0] at h

/-! ### The table -/

theorem mapFind_mapSet (m : Table) (k k' : GoString) (v : Int) :
    mapFind (mapSet m k v) k' = if k = k' then some v else mapFind m k' := by
  induction m with
  | nil => simp [mapSet, mapFind]
  | cons e m ih =>
    obtain ⟨a, w⟩ := e
    by_cases h : a = k
    · subst h
      by_cases h' : a = k' <;> simp [mapSet, mapFind, h']
    · by_cases h' : a = k'
      · subst h'
        simp [mapSet, mapFind, h, Ne.symm h]
      · simp [mapSet, mapFind, h, h', ih]

theorem wrapInt_add (a c : Int) : wrapInt (wrapInt (a + 1) + c) = wrapInt (a + (c + 1)) := by
  unfold wrapInt
  omega

theorem wrapInt_small (n : Nat) (h : n < 2 ^ 63) : wrapInt (n : Int) = n := by
  unfold wrapInt
  omega

theorem mapFind_foldl_incr (keys : List GoString) (m : Table) (K : GoString) :
    mapFind (keys.foldl mapIncr m) K =
      if K ∈ keys then some (wrapInt (mapGet m K + (keys.count K : Nat))) else mapFind m K := by
  induction keys generalizing m with
  | nil => simp
  | cons k ks ih =>
    rw [List.foldl_cons, ih]
    by_cases hk : k = K
    · subst hk
      have hget : mapGet (mapIncr m k) k = wrapInt (mapGet m k + 1) := by
        simp [mapGet, mapIncr, mapFind_mapSet]
      have hfind : mapFind (mapIncr m k) k = some (wrapInt (mapGet m k + 1)) := by
        simp [mapIncr, mapFind_mapSet]
      by_cases hin : k ∈ ks
      · simp only [hin, if_true, List.mem_cons, true_or, hget, List.count_cons_self]
        rw [wrapInt_add]
        push_cast
        rfl
      · have hc : ks.count k = 0 := List.count_eq_zero_of_not_mem hin
        simp [hin, hfind, hc]
    · have hget : mapGet (mapIncr m k) K = mapGet m K := by
        simp [mapGet, mapIncr, mapFind_mapSet, hk]
      have hfind : mapFind (mapIncr m k) K = mapFind m K := by
        simp [mapIncr, mapFind_mapSet, hk]
      have hcount : (k :: ks).count K = ks.count K := by
        rw [List.count_cons]
        simp [hk]
      simp [hget, hfind, hcount, Ne.symm hk]

/-! ### Recording lines -/

theorem record_nonempty (l : GoString) (b : Bucket) (h : l ≠ []) :
    record l b = .ok { b with buckets := mapIncr b.buckets (l.drop 1) } := by
  cases l with
  | nil => exact absurd rfl h
  | cons c t => simp [record]

theorem loop_lines (compress : Compressor) (lines : List GoString) (b : Bucket)
    (hne : ∀ l ∈ lines, l ≠ []) :
    loop compress b (lines.map Event.line) =
      .ok ({ b with buckets := (lines.map (fun l => l.drop 1)).foldl mapIncr b.buckets }, false) := by
  induction lines generalizing b with
  | nil => rfl
  | cons l ls ih =>
    have hl : l ≠ [] := hne l (by simp)
    have hls : ∀ x ∈ ls, x ≠ [] := fun x hx => hne x (by simp [hx])
    simp only [List.map_cons, loop, step, record_nonempty l b hl, Except.map]
    rw [ih _ hls]
    rfl

/-- Number of lines of the sequence whose content after the first byte is `K`. -/
theorem count_keys (lines : List GoString) (K : GoString) :
    (lines.map (fun l => l.drop 1)).count K = (lines.filter (fun l => l.drop 1 = K)).length := by
  induction lines with
  | nil => rfl
  | cons l ls ih =>
    rw [List.map_cons, List.count_cons, List.filter_cons, ih]
    by_cases h : l.drop 1 = K
    · rw [if_pos (by simpa using h), if_pos (by simpa using h), List.length_cons]
    · rw [if_neg (by simpa using h), if_neg (by simpa using h), Nat.add_zero]

/-! ### Decimal formatting -/

theorem digit_toNat (n : Nat) : (UInt8.ofNat (48 + n % 10)).toNat - 48 = n % 10 := by
  have h : (UInt8.ofNat (48 + n % 10)).toNat = (48 + n % 10) % 256 := by
    simp [UInt8.ofNat, UInt8.toNat, Fin.ofNat]
  rw [h]
  omega

theorem foldl_fmtNatAux (fuel n : Nat) (acc : GoString) (h : n < fuel) :
    (fmtNatAux fuel n acc).foldl (fun a d => 10 * a + (d.toNat - 48)) 0 =
      acc.foldl (fun a d => 10 * a + (d.toNat - 48)) n := by
  induction fuel generalizing n acc with
  | zero => omega
  | succ fuel ih =>
    unfold fmtNatAux
    by_cases hz : n / 10 = 0
    · simp only [hz, if_true, List.foldl_cons, digit_toNat]
      congr 1
      omega
    · simp only [hz, if_false]
      rw [ih (n / 10) _ (by omega)]
      simp only [List.foldl_cons, digit_toNat]
      congr 1
      omega

theorem decVal_fmtNat (n : Nat) : decVal (fmtNat n) = n := by
  unfold decVal fmtNat
  rw [foldl_fmtNatAux (n + 1) n [] (by omega)]
  rfl

theorem fmtNat_injective {n m : Nat} (h : fmtNat n = fmtNat m) : n = m := by
  have := congrArg decVal h
  simpa [decVal_fmtNat] using this

theorem fmtInt_natCast (n : Nat) : fmtInt (n : Int) = fmtNat n := by
  unfold fmtInt
  rw [if_neg (by omega)]
  simp

theorem fmtNatAux_digits (fuel n : Nat) (acc : GoString)
    (hacc : ∀ c ∈ acc, isDigit c = true) : ∀ c ∈ fmtNatAux fuel n acc, isDigit c = true := by
  induction fuel generalizing n acc with
  | zero => simpa [fmtNatAux] using hacc
  | succ fuel ih =>
    have hd : isDigit (UInt8.ofNat (48 + n % 10)) = true := by
      have h : (UInt8.ofNat (48 + n % 10)).toNat = (48 + n % 10) % 256 := by
        simp [UInt8.ofNat, UInt8.toNat, Fin.ofNat]
      simp only [isDigit, h, Bool.and_eq_true, decide_eq_true_eq]
      omega
    have hacc2 : ∀ c ∈ UInt8.ofNat (48 + n % 10) :: acc, isDigit c = true := by
      intro c hc
      rcases List.mem_cons.mp hc with rfl | hc
      · exact hd
      · exact hacc c hc
    unfold fmtNatAux
    by_cases hz : n / 10 = 0
    · simpa [hz] using hacc2
    · simp only [hz, if_false]
      exact ih _ _ hacc2

theorem fmtNat_digits (n : Nat) : ∀ c ∈ fmtNat n, isDigit c = true :=
  fmtNatAux_digits (n + 1) n [] (by simp)

/-! ### Paths -/

theorem splitSlash_ne_nil (p : GoString) : splitSlash p ≠ [] := by
  cases p with
  | nil => simp [splitSlash]
  | cons c s =>
    unfold splitSlash
    by_cases h : c = 47
    · simp [h]
    · simp only [h, if_false]
      split <;> simp

theorem splitSlash_plain (f : GoString) (h : (47 : UInt8) ∉ f) : splitSlash f = [f] := by
  induction f with
  | nil => rfl
  | cons c s ih =>
    have hc : c ≠ 47 := fun hc => h (by simp [hc])
    have hs : (47 : UInt8) ∉ s := fun hs => h (by simp [hs])
    unfold splitSlash
    simp [hc, ih hs]

theorem splitSlash_cons_ne (c : UInt8) (s e : GoString) (es : List GoString) (h : c ≠ 47)
    (hs : splitSlash s = e :: es) : splitSlash (c :: s) = (c :: e) :: es := by
  simp [splitSlash, h, hs]

theorem splitSlash_append (d f : GoString) :
    splitSlash (d ++ 47 :: f) = splitSlash d ++ splitSlash f := by
  induction d with
  | nil => simp [splitSlash]
  | cons c s ih =>
    by_cases h : c = 47
    · subst h
      simp [splitSlash, ih]
    · have hne := splitSlash_ne_nil s
      cases hs : splitSlash s with
      | nil => exact absurd hs hne
      | cons e es =>
        rw [List.cons_append,
          splitSlash_cons_ne c (s ++ 47 :: f) e (es ++ splitSlash f) h (by rw [ih, hs]; rfl),
          splitSlash_cons_ne c s e es h hs]
        rfl

theorem joinSlash_concat (xs : List GoString) (y : GoString) :
    joinSlash (xs ++ [y]) = if xs = [] then y else joinSlash xs ++ ascii "/" ++ y := by
  induction xs with
  | nil => rfl
  | cons x xs ih =>
    cases xs with
    | nil => simp [joinSlash]
    | cons x2 xs2 =>
      have ih2 : joinSlash (x2 :: (xs2 ++ [y])) = joinSlash (x2 :: xs2) ++ ascii "/" ++ y := by
        simpa using ih
      show x ++ ascii "/" ++ joinSlash (x2 :: (xs2 ++ [y])) = _
      rw [ih2]
      simp [joinSlash]

/-- A file name that `path.Clean` keeps as it is: one element, other than `.` and `..`. -/
theorem pathJoin_plain (dir : GoString) :
    ∃ pre : GoString, ∀ f : GoString, (47 : UInt8) ∉ f → f ≠ [] → f ≠ ascii "." →
      f ≠ ascii ".." → pathJoin dir f = pre ++ f := by
  have hstep : ∀ (r : Bool) (kept : List GoString) (f : GoString), f ≠ [] → f ≠ ascii "." →
      f ≠ ascii ".." → cleanStep r kept f = f :: kept := by
    intro r kept f h1 h2 h3
    simp [cleanStep, h1, h2, h3]
  by_cases hd : dir = []
  · refine ⟨[], ?_⟩
    intro f hs h1 h2 h3
    have hhead : ¬ f.head? = some 47 := by
      cases f with
      | nil => simp
      | cons c t =>
        simp only [List.head?_cons, Option.some.injEq]
        intro hc
        exact hs (by simp [hc])
    simp [pathJoin, hd, h1, pathClean, splitSlash_plain f hs, hhead, hstep false [] f h1 h2 h3,
      joinSlash]
  · refine ⟨(if dir.head? = some 47 then ascii "/" else []) ++
      (if ((splitSlash dir).foldl (cleanStep (decide (dir.head? = some 47))) []).reverse = []
        then []
        else joinSlash ((splitSlash dir).foldl
          (cleanStep (decide (dir.head? = some 47))) []).reverse ++ ascii "/"), ?_⟩
    intro f hs h1 h2 h3
    have hne : dir ++ ascii "/" ++ f ≠ [] := by
      cases dir with
      | nil => exact absurd rfl hd
      | cons c t => simp
    have hhead : (dir ++ ascii "/" ++ f).head? = dir.head? := by
      cases dir with
      | nil => exact absurd rfl hd
      | cons c t => simp
    have hsplit : splitSlash (dir ++ ascii "/" ++ f) = splitSlash dir ++ [f] := by
      have : dir ++ ascii "/" ++ f = dir ++ 47 :: f := by simp [ascii]
      rw [this, splitSlash_append, splitSlash_plain f hs]
    unfold pathJoin pathClean
    simp only [hd, h1, hne, if_false, hhead, hsplit, List.foldl_append, List.foldl_cons,
      List.foldl_nil, hstep _ _ f h1 h2 h3, List.reverse_cons, joinSlash_concat]
    by_cases hr : dir.head? = some 47
    · simp only [hr, decide_True, if_true]
      split <;> simp
    · simp only [hr, decide_False, if_false, Bool.false_eq_true]
      rw [if_neg (by simp)]
      split <;> simp

/-! ### File names -/

theorem fmtInt_chars (i : Int) : ∀ c ∈ fmtInt i, c ≠ 46 ∧ c ≠ 47 := by
  have hdig : ∀ c : UInt8, isDigit c = true → c ≠ 46 ∧ c ≠ 47 := by
    intro c hc
    simp only [isDigit, Bool.and_eq_true, decide_eq_true_eq] at hc
    constructor <;> (rintro rfl; revert hc; decide)
  intro c hc
  unfold fmtInt at hc
  split at hc
  · rcases List.mem_cons.mp hc with rfl | hc
    · decide
    · exact hdig c (fmtNat_digits _ c hc)
  · exact hdig c (fmtNat_digits _ c hc)

/-- Under plain names every file of the bucket is the same directory part followed by its file
name. -/
theorem names_plain (b : Bucket) (h : b.PlainNames) :
    ∃ pre : GoString,
      b.mainName = pre ++ (b.LogName ++ ascii "." ++ b.LogExtension) ∧
      ∀ (i : Int) (sfx : GoString), (47 : UInt8) ∉ sfx →
        b.numbered i sfx = pre ++ (b.LogName ++ ascii "." ++ fmtInt i ++ ascii "." ++ sfx) := by
  obtain ⟨hn, he, _, hne, hdot⟩ := h
  obtain ⟨pre, hpre⟩ := pathJoin_plain b.LogPath
  have hlen : 0 < b.LogName.length := List.length_pos.mpr hne
  refine ⟨pre, ?_, ?_⟩
  · apply hpre
    · simp [hn, he, ascii]
    · simp [hne]
    · intro hx
      have := congrArg List.length hx
      simp [ascii] at this
      omega
    · intro hx
      cases hL : b.LogName with
      | nil => exact hne hL
      | cons c t =>
        rw [hL] at hx
        simp only [ascii, List.cons_append] at hx
        have hc : c = 46 := by
          have := (List.cons.inj hx).1
          simpa using this
        have ht : t = [] := by
          have := congrArg List.length (List.cons.inj hx).2
          simp at this
          exact List.length_eq_zero.mp (by omega)
        apply hdot
        rw [hL, hc, ht]
        rfl
  · intro i sfx hs
    apply hpre
    · have hi : (47 : UInt8) ∉ fmtInt i := fun hx => (fmtInt_chars i 47 hx).2 rfl
      simp [hn, hs, hi, ascii]
    · simp [hne]
    · intro hx
      have := congrArg List.length hx
      simp [ascii] at this
      omega
    · intro hx
      have := congrArg List.length hx
      simp [ascii] at this
      omega

theorem suffix_plain (b : Bucket) (h : b.CompressProgPath = []) : b.suffix = b.LogExtension := by
  simp [Bucket.suffix, h]

theorem suffix_noslash (b : Bucket) (h : b.PlainNames) : (47 : UInt8) ∉ b.suffix := by
  obtain ⟨_, he, hc, _, _⟩ := h
  unfold Bucket.suffix
  split
  · simp [he, hc, ascii]
  · exact he

theorem numbered_injective (b : Bucket) (hp : b.PlainNames) (sfx : GoString)
    (hs : (47 : UInt8) ∉ sfx) {n m : Nat}
    (h : b.numbered (n : Int) sfx = b.numbered (m : Int) sfx) : n = m := by
  obtain ⟨pre, _, hnum⟩ := names_plain b hp
  rw [hnum _ sfx hs, hnum _ sfx hs, fmtInt_natCast, fmtInt_natCast] at h
  have h1 := List.append_cancel_left h
  have h2 := List.append_cancel_right h1
  have h3 := List.append_cancel_right h2
  have h4 := List.append_cancel_left h3
  exact fmtNat_injective h4

theorem mainName_ne_numbered (b : Bucket) (hp : b.PlainNames) (i : Int) (sfx : GoString)
    (hs : (47 : UInt8) ∉ sfx) (hlen : b.LogExtension.length ≤ sfx.length) :
    b.mainName ≠ b.numbered i sfx := by
  obtain ⟨pre, hmain, hnum⟩ := names_plain b hp
  intro h
  rw [hmain, hnum i sfx hs] at h
  have h1 := List.append_cancel_left h
  have h2 := congrArg List.length h1
  have hdot : (ascii ".").length = 1 := rfl
  simp only [List.length_append, hdot] at h2
  omega

theorem mainName_ne_plain (b : Bucket) (hp : b.PlainNames) (i : Int) :
    b.mainName ≠ b.numbered i b.LogExtension :=
  mainName_ne_numbered b hp i b.LogExtension hp.2.1 (Nat.le_refl _)

theorem renameSkip_spec (fs : FS) (src dst : GoString) (hne : src ≠ dst) (hdst : fs dst = none) :
    ((fsRename fs src dst).getD fs) src = none ∧ ((fsRename fs src dst).getD fs) dst = fs src ∧
      ∀ p, p ≠ src → p ≠ dst → ((fsRename fs src dst).getD fs) p = fs p := by
  cases h : fs src with
  | none => simp [fsRename, h, hdst]
  | some c =>
    refine ⟨?_, ?_, ?_⟩
    · simp [fsRename, h, hne]
    · simp [fsRename, h]
    · intro p h1 h2
      simp [fsRename, h, h1, h2]

theorem shiftLoop_frame (b : Bucket) (i : Nat) (fs : FS) (p : GoString)
    (hp : ∀ j : Nat, j ≤ i → p ≠ b.numbered ((j + 1 : Nat) : Int) b.suffix) :
    shiftLoop b i fs p = fs p := by
  induction i generalizing fs with
  | zero => rfl
  | succ i ih =>
    unfold shiftLoop
    simp only
    rw [ih _ (fun j hj => hp j (by omega))]
    have h1 : p ≠ b.numbered ((i : Int) + 1) b.suffix := by
      have := hp i (by omega)
      simpa using this
    have h2 : p ≠ b.numbered ((i : Int) + 1 + 1) b.suffix := by
      have := hp (i + 1) (by omega)
      simpa using this
    cases h : fs (b.numbered ((i : Int) + 1) b.suffix) with
    | none => simp [fsRename, h]
    | some c => simp [fsRename, h, h1, h2]

theorem shiftLoop_spec (b : Bucket) (hp : b.PlainNames) (i : Nat) (fs : FS)
    (hole : fs (b.numbered ((i + 1 : Nat) : Int) b.suffix) = none) :
    (∀ j : Nat, j < i → shiftLoop b i fs (b.numbered ((j + 2 : Nat) : Int) b.suffix) =
        fs (b.numbered ((j + 1 : Nat) : Int) b.suffix)) ∧
      shiftLoop b i fs (b.numbered ((1 : Nat) : Int) b.suffix) = none := by
  induction i generalizing fs with
  | zero =>
    refine ⟨fun j hj => absurd hj (by omega), ?_⟩
    simpa [shiftLoop] using hole
  | succ i ih =>
    have hsrc : b.numbered ((i : Int) + 1) b.suffix = b.numbered ((i + 1 : Nat) : Int) b.suffix := by
      simp
    have hdst : b.numbered ((i : Int) + 1 + 1) b.suffix = b.numbered ((i + 2 : Nat) : Int) b.suffix := by
      congr 1
    have hne : b.numbered ((i + 1 : Nat) : Int) b.suffix ≠ b.numbered ((i + 2 : Nat) : Int) b.suffix := by
      intro h
      have := numbered_injective b hp b.suffix (suffix_noslash b hp) h
      omega
    obtain ⟨r1, r2, r3⟩ := renameSkip_spec fs _ _ hne hole
    unfold shiftLoop
    simp only [hsrc, hdst]
    obtain ⟨ih1, ih2⟩ := ih _ r1
    refine ⟨?_, ih2⟩
    intro j hj
    by_cases hji : j < i
    · rw [ih1 j hji]
      apply r3
      · intro h
        have := numbered_injective b hp b.suffix (suffix_noslash b hp) h
        omega
      · intro h
        have := numbered_injective b hp b.suffix (suffix_noslash b hp) h
        omega
    · have hj' : j = i := by omega
      subst hj'
      rw [shiftLoop_frame]
      · exact r2
      · intro k hk h
        have := numbered_injective b hp b.suffix (suffix_noslash b hp) h
        omega

theorem propagate_backlog (compress : Compressor) (b : Bucket) (N t : Nat)
    (hist : List GoString) (c : GoString) (hp : b.PlainNames)
    (hcomp : b.CompressProgPath = []) (hN : b.RotateCount = (N : Int)) (hpos : 0 < N)
    (ht : N < t)
    (htmp : b.fs (b.numbered (t : Int) b.LogExtension) = some c)
    (hinv : ∀ k : Nat, k + 1 ≠ t →
      b.fs (b.numbered ((k + 1 : Nat) : Int) b.LogExtension) = if k < N then hist[k]? else none) :
    ∃ fs', propagate compress b (b.numbered (t : Int) b.LogExtension) =
        .ok { b with fs := fs', rotateSync := none } ∧
      (∀ k : Nat, fs' (b.numbered ((k + 1 : Nat) : Int) b.LogExtension) =
        if k < N then (c :: hist)[k]? else none) ∧
      (∀ p, (∀ k : Nat, p ≠ b.numbered (k : Int) b.LogExtension) → fs' p = b.fs p) := by
  have hs := suffix_plain b hcomp
  have hinj : ∀ {n m : Nat}, b.numbered (n : Int) b.LogExtension =
      b.numbered (m : Int) b.LogExtension → n = m := fun h => numbered_injective b hp _ hp.2.1 h
  have hN1 : (b.RotateCount - 1).toNat = N - 1 := by
    rw [hN]
    omega
  have hNN : ((N - 1 + 1 : Nat) : Int) = (N : Int) := by
    congr 1
    omega
  -- the directory after the oldest generation is removed
  have hole : fsRemove b.fs (b.numbered (N : Int) b.LogExtension)
      (b.numbered ((N - 1 + 1 : Nat) : Int) b.suffix) = none := by
    rw [hs, hNN]
    simp [fsRemove]
  obtain ⟨sh1, sh2⟩ := shiftLoop_spec b hp (N - 1) _ hole
  have frame := shiftLoop_frame b (N - 1) (fsRemove b.fs (b.numbered (N : Int) b.LogExtension))
  rw [hs] at sh1 sh2 frame
  have hrm : ∀ n : Nat, n ≠ N →
      fsRemove b.fs (b.numbered (N : Int) b.LogExtension) (b.numbered (n : Int) b.LogExtension) =
        b.fs (b.numbered (n : Int) b.LogExtension) := by
    intro n hn
    have : b.numbered (n : Int) b.LogExtension ≠ b.numbered (N : Int) b.LogExtension :=
      fun h => hn (hinj h)
    simp [fsRemove, this]
  have htmp2 : shiftLoop b (N - 1) (fsRemove b.fs (b.numbered (N : Int) b.LogExtension))
      (b.numbered (t : Int) b.LogExtension) = some c := by
    rw [frame _ (fun j hj h => by have := hinj h; omega), hrm t (by omega), htmp]
  refine ⟨fun q => if q = b.numbered 1 b.LogExtension then some c
      else if q = b.numbered (t : Int) b.LogExtension then none
      else shiftLoop b (N - 1) (fsRemove b.fs (b.numbered (N : Int) b.LogExtension)) q, ?_, ?_, ?_⟩
  · unfold propagate
    simp only [hs, hN, hcomp]
    rw [← hN, hN1, hN]
    simp only [fsRename, htmp2, ne_eq, not_true_eq_false, if_false]
  · intro k
    have hk1 : ((k + 1 : Nat) : Int) = (k : Int) + 1 := by push_cast; rfl
    cases k with
    | zero =>
      simp [hpos]
    | succ j =>
      have hne1 : b.numbered ((j + 1 + 1 : Nat) : Int) b.LogExtension ≠
          b.numbered ((1 : Nat) : Int) b.LogExtension := fun h => by have := hinj h; omega
      have hne1' : b.numbered ((j + 1 + 1 : Nat) : Int) b.LogExtension ≠
          b.numbered 1 b.LogExtension := by simpa using hne1
      by_cases hjt : j + 1 + 1 = t
      · have hjN : ¬ (j + 1 < N) := by omega
        rw [if_neg hjN, hjt]
        have : b.numbered (t : Int) b.LogExtension ≠ b.numbered 1 b.LogExtension := by
          rw [← hjt]; exact hne1'
        simp [this]
      · have hnet : b.numbered ((j + 1 + 1 : Nat) : Int) b.LogExtension ≠
            b.numbered (t : Int) b.LogExtension := fun h => hjt (hinj h)
        simp only [hne1', hnet, if_false]
        by_cases hjN : j + 1 < N
        · rw [if_pos hjN, sh1 j (by omega), hrm (j + 1) (by omega), hinv j (by omega),
            if_pos (by omega)]
          simp
        · rw [if_neg hjN, frame _ (fun i hi h => by have := hinj h; omega),
            hrm (j + 1 + 1) (by omega), hinv (j + 1) hjt, if_neg hjN]
  · intro p hp
    have hp1 : p ≠ b.numbered 1 b.LogExtension := by
      have := hp 1
      simpa using this
    simp only [hp1, hp t, if_false]
    rw [frame p (fun j _ => hp (j + 1))]
    simp [fsRemove, hp N]

/-! ### Rotation -/

@[simp]
theorem numbered_update (b : Bucket) (ms : Nat) (rc : Int) (le ce cp : GoString) (bk : Table)
    (ml : GoString) (bw : Nat) (cf : GoString) (rs : Option GoString) (fs : FS) :
    Bucket.numbered
      { LogPath := b.LogPath, LogName := b.LogName, MaxSize := ms, RotateCount := rc,
        LogExtension := le, CompressedExtension := ce, CompressProgPath := cp, buckets := bk,
        mainLog := ml, bytesWritten := bw, currentFile := cf, rotateSync := rs, fs := fs } =
      b.numbered := rfl

theorem rotate_ok (compress : Compressor) (now : Int) (b b0 : Bucket) (c : GoString)
    (harch : archive compress b = .ok b0) (hmain : b0.fs b0.mainLog = some c) :
    rotate compress now b =
      .ok { b0 with
        fs := if b0.RotateCount = 0 then
            fsRemove (fsCreate (fun q => if q = b0.numbered now b0.LogExtension then some c
              else if q = b0.mainLog then none else b0.fs q) b0.mainLog)
              (b0.numbered now b0.LogExtension)
          else fsCreate (fun q => if q = b0.numbered now b0.LogExtension then some c
              else if q = b0.mainLog then none else b0.fs q) b0.mainLog,
        currentFile := b0.mainLog,
        bytesWritten := 0,
        rotateSync := if b0.RotateCount = 0 then none else some (b0.numbered now b0.LogExtension) } := by
  unfold rotate
  rw [harch]
  simp only [fsRename, hmain]
  by_cases h0 : b0.RotateCount = 0
  · simp [h0]
  · simp [h0]

theorem round_backlog (compress : Compressor) (b : Bucket) (N : Nat) (hist : List GoString)
    (r : GoString × Int) (hp : b.PlainNames)
    (hcomp : b.CompressProgPath = []) (hN : b.RotateCount = (N : Int)) (hpos : 0 < N)
    (hlock : b.rotateSync = none) (hcur : b.currentFile = b.mainLog)
    (hname : b.mainLog = b.mainName) (hmain : b.fs b.mainLog = some [])
    (hinv : ∀ k : Nat,
      b.fs (b.numbered ((k + 1 : Nat) : Int) b.LogExtension) = if k < N then hist[k]? else none)
    (ht : (N : Int) < r.2) :
    ∃ fs', round compress b r = .ok { b with fs := fs', bytesWritten := 0 } ∧
      fs' b.mainLog = some [] ∧
      ∀ k : Nat, fs' (b.numbered ((k + 1 : Nat) : Int) b.LogExtension) =
        if k < N then (r.1 :: hist)[k]? else none := by
  obtain ⟨d, t'⟩ := r
  obtain ⟨t, rfl⟩ : ∃ t : Nat, t' = (t : Int) := ⟨t'.toNat, by simp at ht; omega⟩
  have htN : N < t := by simpa using ht
  have hmn : ∀ i : Int, b.mainLog ≠ b.numbered i b.LogExtension := by
    intro i
    rw [hname]
    exact mainName_ne_plain b hp i
  have hinj : ∀ {n m : Nat}, b.numbered (n : Int) b.LogExtension =
      b.numbered (m : Int) b.LogExtension → n = m := fun h => numbered_injective b hp _ hp.2.1 h
  -- the state when `rotate` returns
  have hrot := rotate_ok compress (t : Int) { b with fs := fsAppend b.fs b.currentFile d }
    { b with fs := fsAppend b.fs b.currentFile d } d
    (by simp [archive, hlock]) (by simp [fsAppend, hcur, hmain])
  have hN0 : ¬ b.RotateCount = 0 := by rw [hN]; omega
  simp only [hN0, if_false, numbered_update] at hrot
  -- the archiver pass
  obtain ⟨fs', hp, hgen, hframe⟩ := propagate_backlog compress
    { b with
      fs := fsCreate (fun q => if q = b.numbered (t : Int) b.LogExtension then some d
              else if q = b.mainLog then none else fsAppend b.fs b.currentFile d q) b.mainLog,
      currentFile := b.mainLog, bytesWritten := 0,
      rotateSync := some (b.numbered (t : Int) b.LogExtension) }
    N t hist d hp hcomp hN hpos htN
    (by simp [fsCreate, Ne.symm (hmn _)])
    (by
      intro k hk
      simp only [numbered_update]
      have h1 : b.numbered ((k + 1 : Nat) : Int) b.LogExtension ≠ b.mainLog := Ne.symm (hmn _)
      have h2 : b.numbered ((k + 1 : Nat) : Int) b.LogExtension ≠
          b.numbered (t : Int) b.LogExtension := fun h => hk (hinj h)
      have := hinv k
      simp only [fsCreate, fsAppend, hcur, h1, h2, if_false]
      exact this)
  simp only [numbered_update] at hp hgen hframe
  refine ⟨fs', ?_, ?_, hgen⟩
  · unfold round
    simp only
    rw [hrot]
    simp only [archive]
    rw [hp, ← hcur, ← hlock]
  · rw [hframe b.mainLog (fun k => hmn _)]
    simp [fsCreate, hmn]

theorem rounds_backlog (compress : Compressor) (rs : List (GoString × Int)) (b : Bucket)
    (N : Nat) (hist : List GoString) (hp : b.PlainNames)
    (hcomp : b.CompressProgPath = []) (hN : b.RotateCount = (N : Int)) (hpos : 0 < N)
    (hlock : b.rotateSync = none) (hcur : b.currentFile = b.mainLog)
    (hname : b.mainLog = b.mainName) (hmain : b.fs b.mainLog = some [])
    (hinv : ∀ k : Nat,
      b.fs (b.numbered ((k + 1 : Nat) : Int) b.LogExtension) = if k < N then hist[k]? else none)
    (ht : ∀ r ∈ rs, (N : Int) < r.2) :
    ∃ fs' bw, rounds compress b rs = .ok { b with fs := fs', bytesWritten := bw } ∧
      fs' b.mainLog = some [] ∧
      ∀ k : Nat, fs' (b.numbered ((k + 1 : Nat) : Int) b.LogExtension) =
        if k < N then ((rs.map Prod.fst).reverse ++ hist)[k]? else none := by
  induction rs generalizing b hist with
  | nil => exact ⟨b.fs, b.bytesWritten, rfl, hmain, by simpa using hinv⟩
  | cons r rs ih =>
    obtain ⟨fs1, h1, hm1, hg1⟩ := round_backlog compress b N hist r hp hcomp hN hpos hlock hcur
      hname hmain hinv (ht r (by simp))
    obtain ⟨fs2, bw2, h2, hm2, hg2⟩ := ih { b with fs := fs1, bytesWritten := 0 } (r.1 :: hist)
      hp hcomp hN hlock hcur hname hm1 hg1 (fun x hx => ht x (by simp [hx]))
    simp only [numbered_update] at hg2
    refine ⟨fs2, bw2, ?_, hm2, ?_⟩
    · simp only [rounds, h1]
      exact h2
    · intro k
      rw [hg2 k]
      simp

/-- Retention without a compressor: with retention `N > 0`, plain names, an empty generation
backlog, a fresh active file and no archiver pending, `N+1` rotation rounds whose Unix
timestamps exceed `N`, each followed by its archiver pass, all succeed; afterwards generation
`k+1` exists exactly for `k < N` and holds the content rotated in round `N-k` (rounds counted
from 0), so generation 1 holds the most recent content and the content of the first round is in
no generation file; the active file is empty. -/
theorem backlog_after_rounds (compress : Compressor) (b : Bucket) (N : Nat)
    (rs : List (GoString × Int)) (hp : b.PlainNames)
    (hcomp : b.CompressProgPath = []) (hN : b.RotateCount = (N : Int)) (hpos : 0 < N)
    (hlock : b.rotateSync = none) (hcur : b.currentFile = b.mainLog)
    (hname : b.mainLog = b.mainName) (hmain : b.fs b.mainLog = some [])
    (hempty : ∀ k : Nat, b.fs (b.numbered ((k + 1 : Nat) : Int) b.LogExtension) = none)
    (hlen : rs.length = N + 1) (ht : ∀ r ∈ rs, (N : Int) < r.2) :
    ∃ b', rounds compress b rs = .ok b' ∧ b'.fs b'.mainLog = some [] ∧
      b'.mainLog = b.mainLog ∧
      (∀ k : Nat, b'.fs (b.numbered ((k + 1 : Nat) : Int) b.LogExtension) =
        if k < N then (rs[N - k]?).map Prod.fst else none) ∧
      (∀ k : Nat, (b'.fs (b.numbered ((k + 1 : Nat) : Int) b.LogExtension)).isSome = true ↔
        k < N) := by
  obtain ⟨fs', bw, hr, hm, hg⟩ := rounds_backlog compress rs b N [] hp hcomp hN hpos hlock hcur
    hname hmain (by intro k; rw [hempty k]; split <;> simp) ht
  have hgen : ∀ k : Nat, fs' (b.numbered ((k + 1 : Nat) : Int) b.LogExtension) =
      if k < N then (rs[N - k]?).map Prod.fst else none := by
    intro k
    rw [hg k]
    by_cases hk : k < N
    · simp only [hk, if_true, List.append_nil]
      rw [List.getElem?_reverse (by simp; omega)]
      simp only [List.length_map, hlen, List.getElem?_map]
      congr 2
    · simp [hk]
  refine ⟨_, hr, hm, rfl, hgen, ?_⟩
  intro k
  show (fs' _).isSome = true ↔ _
  rw [hgen k]
  by_cases hk : k < N
  · have hlt : N - k < rs.length := by omega
    simp [hk, List.getElem?_eq_getElem hlt]
  · simp [hk]

theorem mapSet_keys (m : Table) (k : GoString) (v : Int) :
    (mapSet m k v).map Prod.fst =
      if k ∈ m.map Prod.fst then m.map Prod.fst else m.map Prod.fst ++ [k] := by
  induction m with
  | nil => simp [mapSet]
  | cons e m ih =>
    obtain ⟨a, w⟩ := e
    by_cases h : a = k
    · subst h
      simp [mapSet]
    · have h' : ¬ k = a := fun x => h x.symm
      simp only [mapSet, h, if_false, List.map_cons, ih, List.mem_cons, h', false_or]
      split <;> simp

theorem mapIncr_nodup (m : Table) (k : GoString) (h : (m.map Prod.fst).Nodup) :
    ((mapIncr m k).map Prod.fst).Nodup := by
  unfold mapIncr
  rw [mapSet_keys]
  split
  · exact h
  · rename_i hk
    rw [List.nodup_append]
    refine ⟨h, by simp, ?_⟩
    intro a ha hb
    simp only [List.mem_singleton] at hb
    subst hb
    exact hk ha

theorem foldl_mapIncr_nodup (keys : List GoString) (m : Table) (h : (m.map Prod.fst).Nodup) :
    ((keys.foldl mapIncr m).map Prod.fst).Nodup := by
  induction keys generalizing m with
  | nil => exact h
  | cons k ks ih => exact ih _ (mapIncr_nodup m k h)

theorem mapFind_of_mem (m : Table) (kv : GoString × Int) (h : (m.map Prod.fst).Nodup)
    (hmem : kv ∈ m) : mapFind m kv.1 = some kv.2 := by
  induction m with
  | nil => simp at hmem
  | cons e m ih =>
    obtain ⟨a, w⟩ := e
    simp only [List.map_cons, List.nodup_cons] at h
    rcases List.mem_cons.mp hmem with rfl | hin
    · simp [mapFind]
    · have hne : a ≠ kv.1 := by
        intro ha
        apply h.1
        rw [ha]
        exact List.mem_map_of_mem Prod.fst hin
      simp [mapFind, hne, ih h.2 hin]

theorem mem_of_mapFind (m : Table) (k : GoString) (v : Int) (h : mapFind m k = some v) :
    (k, v) ∈ m := by
  induction m with
  | nil => simp [mapFind] at h
  | cons e m ih =>
    obtain ⟨a, w⟩ := e
    by_cases ha : a = k
    · subst ha
      simp [mapFind] at h
      simp [h]
    · simp only [mapFind, ha, if_false] at h
      simp [ih h]

theorem mapIncr_thrice (k : GoString) : mapIncr (mapIncr (mapIncr [] k) k) k = [(k, 3)] := by
  simp [mapIncr, mapSet, mapGet, mapFind, wrapInt]

theorem dumpWrite_fs (f : Flush) (b : Bucket) (p : GoString) :
    (dumpWrite f b).fs p =
      if p = b.currentFile then
            (b.fs p).map (fun c => c ++ (dumpBuf f b.buckets).take (written f b.buckets))
      else b.fs p := by
  by_cases h : p = b.currentFile
  · subst h
    simp [dumpWrite, fsAppend]
  · simp [dumpWrite, fsAppend, h]

/-! ### The order of `range` -/

theorem rangeOrder_perm (f : Flush) (m : Table) : (rangeOrder f m).Perm m := by
  unfold rangeOrder
  split
  · assumption
  · exact List.Perm.refl m

theorem rangeOrder_of_perm (f : Flush) (m : Table) (h : f.order.Perm m) :
    rangeOrder f m = f.order := by
  unfold rangeOrder
  rw [if_pos h]

/-! ### Sample runs -/

theorem started_eq : startInit failedCompressor quietStart sample = .ok started := rfl

theorem recorded3_eq :
    loop failedCompressor started (lines3.map Event.line) = .ok (recorded3, false) := rfl

theorem sample_plain : sample.PlainNames := by decide

theorem started_backlog_empty (k : Nat) :
    started.fs (started.numbered ((k + 1 : Nat) : Int) started.LogExtension) = none := by
  have hne : started.numbered ((k + 1 : Nat) : Int) started.LogExtension ≠ sample.mainName :=
    fun h => mainName_ne_plain sample sample_plain ((k + 1 : Nat) : Int) h.symm
  show fsCreate sample.fs sample.mainName _ = none
  unfold fsCreate
  rw [if_neg hne]
  rfl

/-- The sample kept through three rounds without a compressor: generation 1 holds `R3`,
generation 2 holds `R2`, and there is no generation 3. -/
theorem sample_rounds_keep_two :
    ∃ b', rounds failedCompressor started rounds3 = .ok b' ∧
      b'.fs (ascii "/l/ev.log") = some [] ∧
      b'.fs (ascii "/l/ev.1.log") = some (ascii "R3") ∧
      b'.fs (ascii "/l/ev.2.log") = some (ascii "R2") ∧
      b'.fs (ascii "/l/ev.3.log") = none := by
  obtain ⟨b', h, hm, hml, hg, _⟩ := backlog_after_rounds failedCompressor started 2 rounds3
    sample_plain rfl rfl (by decide) rfl rfl rfl (by decide) started_backlog_empty rfl
    (by decide)
  refine ⟨b', h, ?_, ?_, ?_, ?_⟩
  · rw [hml] at hm
    exact hm
  · exact hg 0
  · exact hg 1
  · exact hg 2

/-- The sample with `xz` configured and working, through the same three rounds: generations 1
and 2 hold `R3` and `R2` under the compressed extension. -/
theorem sample_rounds_moving_compressor :
    (rounds movingCompressor startedXz rounds3).toOption.map
        (fun b' => (b'.fs (ascii "/l/ev.1.log.xz"), b'.fs (ascii "/l/ev.2.log.xz"),
          b'.fs (ascii "/l/ev.3.log.xz"), b'.fs (ascii "/l/ev.1.log"))) =
      some (some (ascii "R3"), some (ascii "R2"), none, none) := by
  decide!

theorem recordedA_eq :
    loop failedCompressor started [Event.line (ascii "\x7b\"a\":1")] = .ok (recordedA, false) :=
  rfl

theorem loop_lines_panic (compress : Compressor) (lines : List GoString) (b : Bucket)
    (h : [] ∈ lines) : loop compress b (lines.map Event.line) = .error Failure.panic := by
  induction lines generalizing b with
  | nil => simp at h
  | cons l ls ih =>
    cases l with
    | nil => rfl
    | cons c t =>
      have hin : [] ∈ ls := by simpa using h
      simp only [List.map_cons, loop, step, record_nonempty (c :: t) b (by simp), Except.map]
      exact ih _ hin

/-- The scenario of the specification run from `Start`: the single line, a tick, and the end of
the archiver pass leave an empty active file, the emitted line in generation 1 and an empty
table. -/
theorem sample_tick_rotates :
    (Start failedCompressor quietStart sample
        [Event.line (ascii "\x7b\"a\":1"), Event.tick (flushA 4096), Event.archived]).toOption.map
        (fun r => (r.1.fs (ascii "/l/ev.log"), r.1.fs (ascii "/l/ev.1.log"),
          r.1.fs (ascii "/l/ev.1700000000.log"), r.1.bytesWritten)) =
      some (some [], some (ascii "\x7b\"count\":1,\"ts\":\"2024-05-01T12:00:00Z\",\"a\":1\n"),
        none, 0) ∧
    (Start failedCompressor quietStart sample
        [Event.line (ascii "\x7b\"a\":1"), Event.tick (flushA 4096), Event.archived]).toOption.map
        (fun r => (r.1.buckets, r.2)) = some ([], false) :=
  ⟨by decide!, by decide!⟩

/-- A start-up in a missing log directory: `os.Stat` answers `ENOENT`, the open fails and the
process exits. -/
theorem sample_start_fatal :
    (startInit failedCompressor { quietStart with openErr := true } sample).toOption.isNone =
      true := by
  decide

/-! # The claims -/

/-- C1: from an empty table (as every flush and the start of the loop leave it), the loop
receives a sequence of fewer than `2^63` non-empty lines; it neither panics nor returns, it
changes nothing but the table, and for every key `K` the table then holds for `K` the number of
lines whose content after the first byte is `K`, keys with no such line being absent. -/
theorem C1_table_counts (compress : Compressor) (b : Bucket) (lines : List GoString)
    (hstart : b.buckets = []) (hne : ∀ l ∈ lines, l ≠ []) (hlen : lines.length < 2 ^ 63) :
    ∃ b', loop compress b (lines.map Event.line) = .ok (b', false) ∧
      b' = { b with buckets := b'.buckets } ∧
      ∀ K : GoString,
        mapFind b'.buckets K =
          if (lines.filter (fun l => l.drop 1 = K)).length = 0 then none
          else some ((lines.filter (fun l => l.drop 1 = K)).length : Int) := by
  refine ⟨_, loop_lines compress lines b hne, rfl, ?_⟩
  intro K
  simp only [hstart]
  rw [mapFind_foldl_incr, ← count_keys]
  have hle : (lines.map (fun l => l.drop 1)).count K ≤ lines.length := by
    have := List.count_le_length K (lines.map (fun l => l.drop 1))
    simpa using this
  by_cases hin : K ∈ lines.map (fun l => l.drop 1)
  · have hpos : 0 < (lines.map (fun l => l.drop 1)).count K := List.count_pos_iff.mpr hin
    rw [if_pos hin, if_neg (by omega)]
    simp only [mapGet, mapFind, Option.getD_none, zero_add]
    rw [wrapInt_small _ (by omega)]
  · have hz : (lines.map (fun l => l.drop 1)).count K = 0 := List.count_eq_zero_of_not_mem hin
    rw [if_neg hin, if_pos hz]
    rfl

/-- Witness of C1: the line `\x7b"x":5` received three times after start-up. -/
theorem C1_table_counts_witness :
    (started.buckets = [] ∧ (∀ l ∈ lines3, l ≠ []) ∧ lines3.length < 2 ^ 63) ∧
      ∃ b', loop failedCompressor started (lines3.map Event.line) = .ok (b', false) ∧
        mapFind b'.buckets (ascii "\"x\":5") = some 3 ∧
        mapFind b'.buckets (ascii "\"y\":1") = none := by
  refine ⟨⟨rfl, by decide, by decide⟩, ?_⟩
  obtain ⟨b', h, _, hK⟩ := C1_table_counts failedCompressor started lines3 rfl (by decide)
    (by decide)
  refine ⟨b', h, ?_, ?_⟩
  · rw [hK]
    decide
  · rw [hK]
    decide

/-- C2: on the empty line the Record step fails: `line[1:]` is out of range, the loop panics
and the process ends, whatever the state. -/
theorem C2_empty_line_panics (compress : Compressor) (b : Bucket) (es : List Event) :
    record [] b = .error Failure.panic ∧
      step compress b (Event.line []) = .error Failure.panic ∧
      loop compress b (Event.line [] :: es) = .error Failure.panic := by
  refine ⟨rfl, rfl, rfl⟩

/-- C3: the buffer that `dump` writes is exactly the lines `{"count":<n>,"ts":"<ts>",<key>` +
newline, one for each entry of the table in the order of the iteration, all with the same `ts`;
the entries are those of the table, one per key, and `<n>` is the decimal numeral of the count.
The bytes appended to the active file are the bytes of that buffer which the write accepts: all
of them when the write is complete.  A key recorded three times then gives the single line with
count 3; the empty table gives no bytes. -/
theorem C3_dump_output (f : Flush) (b : Bucket) (c : GoString)
    (hnodup : (b.buckets.map Prod.fst).Nodup)
    (hfile : b.fs b.currentFile = some c) :
    ∃ order : Table, order.Perm b.buckets ∧
      dumpBuf f b.buckets =
        (order.map (fun kv =>
          ascii "\x7b\"count\":" ++ fmtInt kv.2 ++ ascii ",\"ts\":\"" ++ f.curTime
            ++ ascii "\"," ++ kv.1 ++ ascii "\n")).flatten ∧
      (dumpWrite f b).fs b.currentFile =
        some (c ++ (dumpBuf f b.buckets).take (min f.accept (dumpBuf f b.buckets).length)) ∧
      ((dumpBuf f b.buckets).length ≤ f.accept →
        (dumpWrite f b).fs b.currentFile = some (c ++ dumpBuf f b.buckets)) ∧
      (order.map Prod.fst).Nodup ∧
      (∀ k v, (k, v) ∈ order ↔ mapFind b.buckets k = some v) ∧
      (∀ kv ∈ order, 0 ≤ kv.2 → decVal (fmtInt kv.2) = kv.2.toNat) ∧
      (∀ k, b.buckets = mapIncr (mapIncr (mapIncr [] k) k) k →
        (dumpBuf f b.buckets).length ≤ f.accept →
        (dumpWrite f b).fs b.currentFile =
          some (c ++ (ascii "\x7b\"count\":3,\"ts\":\"" ++ f.curTime ++ ascii "\"," ++ k
            ++ ascii "\n"))) ∧
      (b.buckets = [] → (dumpWrite f b).fs b.currentFile = some c) := by
  have hperm : (rangeOrder f b.buckets).Perm b.buckets := rangeOrder_perm f b.buckets
  have hgen : (dumpWrite f b).fs b.currentFile =
      some (c ++ (dumpBuf f b.buckets).take (min f.accept (dumpBuf f b.buckets).length)) := by
    simp [dumpWrite, fsAppend, hfile, written]
  have happ : (dumpBuf f b.buckets).length ≤ f.accept →
      (dumpWrite f b).fs b.currentFile = some (c ++ dumpBuf f b.buckets) := by
    intro hfull
    rw [hgen, Nat.min_eq_right hfull, List.take_length]
  refine ⟨rangeOrder f b.buckets, hperm, rfl, hgen, happ, ?_, ?_, ?_, ?_, ?_⟩
  · exact (List.Perm.nodup_iff (hperm.map Prod.fst)).mpr hnodup
  · intro k v
    constructor
    · intro h
      exact mapFind_of_mem b.buckets (k, v) hnodup (hperm.mem_iff.mp h)
    · intro h
      exact hperm.mem_iff.mpr (mem_of_mapFind b.buckets k v h)
  · intro kv _ hv
    obtain ⟨n, hn⟩ : ∃ n : Nat, kv.2 = (n : Int) := ⟨kv.2.toNat, by omega⟩
    rw [hn, fmtInt_natCast, decVal_fmtNat]
    simp
  · intro k hk hfull
    rw [mapIncr_thrice] at hk
    rw [hk] at hperm
    have ho : rangeOrder f b.buckets = [(k, 3)] := by
      rw [hk]
      exact List.perm_singleton.mp hperm
    rw [happ hfull]
    simp [dumpBuf, ho, dumpLine, fmtInt, fmtNat, fmtNatAux, ascii]
  · intro hb
    rw [hb] at hperm
    have ho : rangeOrder f b.buckets = [] := by
      rw [hb]
      exact List.perm_nil.mp hperm
    rw [hgen]
    simp [dumpBuf, ho]

/-- Witness of C3: the table with `"x":5` counted three times gives one line with count 3. -/
theorem C3_dump_output_witness :
    ((recorded3.buckets.map Prod.fst).Nodup ∧ recorded3.fs recorded3.currentFile = some [] ∧
        (dumpBuf flush3 recorded3.buckets).length ≤ flush3.accept) ∧
      (dumpWrite flush3 recorded3).fs recorded3.currentFile =
        some (ascii "\x7b\"count\":3,\"ts\":\"2024-05-01T12:00:00Z\",\"x\":5\n") := by
  have hnodup : (recorded3.buckets.map Prod.fst).Nodup := by decide
  have hfile : recorded3.fs recorded3.currentFile = some [] := by decide
  have hfull : (dumpBuf flush3 recorded3.buckets).length ≤ flush3.accept := by decide
  refine ⟨⟨hnodup, hfile, hfull⟩, ?_⟩
  obtain ⟨order, _, _, _, _, _, _, _, h3, _⟩ := C3_dump_output flush3 recorded3 [] hnodup hfile
  rw [h3 (ascii "\"x\":5") (by decide) hfull]
  decide

/-- Counterexample to C3 as stated: the table holds the key `"a":1` once and the write stops
after 5 bytes.  The active file receives `\x7b"cou`, which is not a sequence of whole lines, one
per key, in any order. -/
theorem C3_fails_on_short_write :
    (dumpWrite (flushA 5) recordedA).fs (ascii "/l/ev.log") = some (ascii "\x7b\"cou") ∧
      ¬ ∃ order : Table, order.Perm recordedA.buckets ∧
        (dumpWrite (flushA 5) recordedA).fs (ascii "/l/ev.log") =
          some ((order.map (fun kv =>
            ascii "\x7b\"count\":" ++ fmtInt kv.2 ++ ascii ",\"ts\":\"" ++ (flushA 5).curTime
              ++ ascii "\"," ++ kv.1 ++ ascii "\n")).flatten) := by
  have hfile : (dumpWrite (flushA 5) recordedA).fs (ascii "/l/ev.log") =
      some (ascii "\x7b\"cou") := by decide
  refine ⟨hfile, ?_⟩
  rintro ⟨order, hperm, h⟩
  have ho : order = [(ascii "\"a\":1", 1)] := List.perm_singleton.mp hperm
  rw [hfile, ho] at h
  revert h
  decide

/-- C4: retention 2, an empty backlog and three completed rounds `R1`, `R2`, `R3`, with a
compressor configured that fails each time (or leaves the file where it is).  Generation 1 is
installed under the plain extension while the removal of the oldest generation and the shift
work on the compressed extension, so every round overwrites generation 1: at the end the only
generation file is generation 1 with `R3`, and `R2` is lost, where the claim has generation 2
hold it. -/
theorem C4_generation_lost_when_compressor_fails :
    (rounds failedCompressor startedXz rounds3).toOption.map
        (fun b' => (b'.fs (ascii "/l/ev.1.log"), b'.fs (ascii "/l/ev.2.log"),
          b'.fs (ascii "/l/ev.1.log.xz"), b'.fs (ascii "/l/ev.2.log.xz"))) =
      some (some (ascii "R3"), none, none, none) := by
  decide!

/-- C5: a timer-tick flush compares `bytesWritten`, after the bytes of this flush are added,
with the threshold.  At or above it, the flush is the write, then one call of `rotate` on the
result, then the reset of the table, and (when the rotation can take place) `bytesWritten` is 0
on return.  Below it, the flush is the write and the reset only: the counter is kept, the mutex
is untouched, and the directory differs from the old one just by the bytes appended to the
active file. -/
theorem C5_tick_flush_rotation (compress : Compressor) (f : Flush) (b : Bucket) :
    (b.MaxSize ≤ (b.bytesWritten + written f b.buckets) % 2 ^ 64 →
      dump compress f true b =
          (rotate compress f.now (dumpWrite f b)).map (fun b2 => { b2 with buckets := [] }) ∧
        ∀ b0 c, archive compress (dumpWrite f b) = .ok b0 → b0.fs b0.mainLog = some c →
          ∃ b', dump compress f true b = .ok b' ∧ b'.bytesWritten = 0) ∧
    ((b.bytesWritten + written f b.buckets) % 2 ^ 64 < b.MaxSize →
      dump compress f true b = .ok { dumpWrite f b with buckets := [] } ∧
        (dumpWrite f b).bytesWritten = (b.bytesWritten + written f b.buckets) % 2 ^ 64 ∧
        (dumpWrite f b).rotateSync = b.rotateSync ∧
        ∀ p, (dumpWrite f b).fs p =
          if p = b.currentFile then
            (b.fs p).map (fun c => c ++ (dumpBuf f b.buckets).take (written f b.buckets))
          else b.fs p) := by
  constructor
  · intro h
    have hd : dump compress f true b =
        (rotate compress f.now (dumpWrite f b)).map (fun b2 => { b2 with buckets := [] }) := by
      unfold dump
      have : (dumpWrite f b).MaxSize ≤ (dumpWrite f b).bytesWritten := h
      simp only [Bool.true_and, ge_iff_le, this, decide_True, if_true]
      cases rotate compress f.now (dumpWrite f b) <;> rfl
    refine ⟨hd, ?_⟩
    intro b0 c harch hmain
    rw [hd, rotate_ok compress f.now _ b0 c harch hmain]
    exact ⟨_, rfl, rfl⟩
  · intro h
    refine ⟨?_, rfl, rfl, ?_⟩
    · unfold dump
      have : ¬ (dumpWrite f b).MaxSize ≤ (dumpWrite f b).bytesWritten := by
        show ¬ b.MaxSize ≤ (b.bytesWritten + written f b.buckets) % 2 ^ 64
        omega
      simp [this]
    · exact dumpWrite_fs f b

/-- Witness of C5: the full flush of the sample table under thresholds of 10 and of 1000
bytes. -/
theorem C5_tick_flush_rotation_witness :
    (recorded3.MaxSize ≤ (recorded3.bytesWritten + written flush3 recorded3.buckets) % 2 ^ 64 ∧
        (recordedRoomy.bytesWritten + written flush3 recordedRoomy.buckets) % 2 ^ 64 <
          recordedRoomy.MaxSize) ∧
      (∃ b', dump failedCompressor flush3 true recorded3 = .ok b' ∧ b'.bytesWritten = 0) ∧
      dump failedCompressor flush3 true recordedRoomy =
        .ok { dumpWrite flush3 recordedRoomy with buckets := [] } := by
  have h1 : recorded3.MaxSize ≤
      (recorded3.bytesWritten + written flush3 recorded3.buckets) % 2 ^ 64 := by decide
  have h2 : (recordedRoomy.bytesWritten + written flush3 recordedRoomy.buckets) % 2 ^ 64 <
      recordedRoomy.MaxSize := by decide
  refine ⟨⟨h1, h2⟩, ?_, ?_⟩
  · exact ((C5_tick_flush_rotation failedCompressor flush3 recorded3).1 h1).2
      (dumpWrite flush3 recorded3)
      (ascii "\x7b\"count\":3,\"ts\":\"2024-05-01T12:00:00Z\",\"x\":5\n") rfl (by decide)
  · exact ((C5_tick_flush_rotation failedCompressor flush3 recordedRoomy).2 h2).1

/-- C7: a flush, with `rotate` true or false and whatever part of the buffer the write accepts,
returns with the table empty, provided the rotation it may have to make can take place (the
pending archiver pass ends and the active file is there).  The bytes appended are the accepted
first bytes of the buffer, the counter used by the rotation test is the old one plus their number
(modulo `2^64`), and on return the counter is that sum or, after a rotation, 0.  After a tick
the loop goes on. -/
theorem C7_flush_empties_table (compress : Compressor) (f : Flush) (rot : Bool) (b : Bucket)
    (hrot : rot = true → b.MaxSize ≤ (b.bytesWritten + written f b.buckets) % 2 ^ 64 →
      ∃ b0 c, archive compress (dumpWrite f b) = .ok b0 ∧ b0.fs b0.mainLog = some c) :
    ∃ b', dump compress f rot b = .ok b' ∧ b'.buckets = [] ∧
      step compress b (if rot then Event.tick f else Event.stop f) = .ok (b', !rot) ∧
      ((dumpBuf f b.buckets).take (written f b.buckets)).length = written f b.buckets ∧
      (dumpWrite f b).bytesWritten = (b.bytesWritten + written f b.buckets) % 2 ^ 64 ∧
      (b.bytesWritten + written f b.buckets < 2 ^ 64 →
        (dumpWrite f b).bytesWritten = b.bytesWritten + written f b.buckets) ∧
      (b'.bytesWritten = (dumpWrite f b).bytesWritten ∨
        (rot = true ∧ b.MaxSize ≤ (b.bytesWritten + written f b.buckets) % 2 ^ 64 ∧
          b'.bytesWritten = 0)) := by
  have hlen : ((dumpBuf f b.buckets).take (written f b.buckets)).length = written f b.buckets := by
    simp [written]
  have hsmall : b.bytesWritten + written f b.buckets < 2 ^ 64 →
      (dumpWrite f b).bytesWritten = b.bytesWritten + written f b.buckets := by
    intro h
    show (b.bytesWritten + written f b.buckets) % 2 ^ 64 = _
    exact Nat.mod_eq_of_lt h
  by_cases hcase : rot = true ∧ b.MaxSize ≤ (b.bytesWritten + written f b.buckets) % 2 ^ 64
  · obtain ⟨hr, hT⟩ := hcase
    obtain ⟨b0, c, harch, hmain⟩ := hrot hr hT
    subst hr
    have hd : dump compress f true b = .ok
        { (({ b0 with
            fs := if b0.RotateCount = 0 then
                fsRemove (fsCreate (fun q => if q = b0.numbered f.now b0.LogExtension then some c
                  else if q = b0.mainLog then none else b0.fs q) b0.mainLog)
                  (b0.numbered f.now b0.LogExtension)
              else fsCreate (fun q => if q = b0.numbered f.now b0.LogExtension then some c
                  else if q = b0.mainLog then none else b0.fs q) b0.mainLog,
            currentFile := b0.mainLog,
            bytesWritten := 0,
            rotateSync := if b0.RotateCount = 0 then none
              else some (b0.numbered f.now b0.LogExtension) }) : Bucket) with buckets := [] } := by
      unfold dump
      have : (dumpWrite f b).MaxSize ≤ (dumpWrite f b).bytesWritten := hT
      simp only [Bool.true_and, ge_iff_le, this, decide_True, if_true]
      rw [rotate_ok compress f.now _ b0 c harch hmain]
    refine ⟨_, hd, rfl, ?_, hlen, rfl, hsmall, Or.inr ⟨rfl, hT, rfl⟩⟩
    simp only [if_true, step, hd]
    rfl
  · have hd : dump compress f rot b = .ok { dumpWrite f b with buckets := [] } := by
      unfold dump
      have : ¬ (rot = true ∧ (dumpWrite f b).MaxSize ≤ (dumpWrite f b).bytesWritten) := hcase
      simp only [Bool.and_eq_true, decide_eq_true_eq, ge_iff_le, this, if_false]
    refine ⟨_, hd, rfl, ?_, hlen, rfl, hsmall, Or.inl rfl⟩
    cases rot
    · simp only [step, hd]
      rfl
    · simp only [if_true, step, hd]
      rfl

/-- Witness of C7: a tick flush whose write stops after 5 bytes, with 5 bytes at or above a
threshold of 3, so that a rotation follows. -/
theorem C7_flush_empties_table_witness :
    ∃ b', dump failedCompressor (flushA 5) true { recordedA with MaxSize := 3 } = .ok b' ∧
      b'.buckets = [] ∧
      (dumpWrite (flushA 5) { recordedA with MaxSize := 3 }).bytesWritten = 5 ∧
      (dumpWrite (flushA 5) { recordedA with MaxSize := 3 }).fs (ascii "/l/ev.log") =
        some (ascii "\x7b\"cou") := by
  obtain ⟨b', hd, hb, _, _, hacc, _, _⟩ :=
    C7_flush_empties_table failedCompressor (flushA 5) true { recordedA with MaxSize := 3 }
      (fun _ _ => ⟨dumpWrite (flushA 5) { recordedA with MaxSize := 3 }, ascii "\x7b\"cou",
        rfl, by decide⟩)
  exact ⟨b', hd, hb, by rw [hacc]; decide, by decide⟩

/-- C9: `Start`, entered with the mutex free, exits with a fatal error when `os.Stat` fails
other than with `ENOENT` or when the active file cannot be opened; otherwise it reaches the
loop.  If the active file is missing it is created empty and `bytesWritten` is 0.  If it exists
with a size below the threshold, the directory is left as it is (nothing is truncated or
rotated) and `bytesWritten` is that size.  If it exists with a size at or above the threshold,
what happens is one call of `rotate` with `bytesWritten` set to that size, after which
`bytesWritten` is 0 (and, the names being plain, the active file is fresh and empty).  In every
case the loop is entered with an empty table and with `bytesWritten` equal to 0 or below the
threshold. -/
theorem C9_startup (compress : Compressor) (env : StartEnv) (b : Bucket)
    (hlock : b.rotateSync = none) :
    (env.statErr = true → startInit compress env b = .error Failure.fatal) ∧
    (env.statErr = false → env.openErr = true →
      startInit compress env b = .error Failure.fatal) ∧
    (env.statErr = false → env.openErr = false →
      (b.fs b.mainName = none →
        ∃ b', startInit compress env b = .ok b' ∧ b'.bytesWritten = 0 ∧
          b'.mainLog = b.mainName ∧ b'.currentFile = b.mainName ∧
          b'.fs b.mainName = some [] ∧ (∀ p, p ≠ b.mainName → b'.fs p = b.fs p) ∧
          b'.rotateSync = none) ∧
      (∀ c, b.fs b.mainName = some c → c.length < b.MaxSize →
        ∃ b', startInit compress env b = .ok b' ∧ b'.bytesWritten = c.length ∧
          b'.mainLog = b.mainName ∧ b'.currentFile = b.mainName ∧
          b'.fs = b.fs ∧ b'.rotateSync = none) ∧
      (∀ c, b.fs b.mainName = some c → b.MaxSize ≤ c.length →
        startInit compress env b =
            rotate compress env.now
              { b with
                buckets := [], mainLog := b.mainName, currentFile := b.mainName,
                bytesWritten := c.length } ∧
          ∃ b', startInit compress env b = .ok b' ∧ b'.bytesWritten = 0 ∧
            b'.mainLog = b.mainName ∧ b'.currentFile = b.mainName ∧
            (b.PlainNames → b'.fs b.mainName = some [] ∧
              b'.fs (b.numbered env.now b.LogExtension) =
                if b.RotateCount = 0 then none else some c)) ∧
      (∃ b', startInit compress env b = .ok b' ∧ b'.buckets = [] ∧
        (b'.bytesWritten = 0 ∨ b'.bytesWritten < b'.MaxSize))) := by
  refine ⟨?_, ?_, ?_⟩
  · intro hs
    simp [startInit, hs]
  · intro hs ho
    unfold startInit
    simp only [hs, ho, if_true, Bool.false_eq_true, if_false]
    split <;> rfl
  intro hs ho
  have hA : b.fs b.mainName = none →
      startInit compress env b = .ok
        { b with
          buckets := [], mainLog := b.mainName, fs := fsCreate b.fs b.mainName,
          currentFile := b.mainName, bytesWritten := 0 } := by
    intro h
    simp [startInit, hs, ho, h]
  have hB : ∀ c, b.fs b.mainName = some c → c.length < b.MaxSize →
      startInit compress env b = .ok
        { b with
          buckets := [], mainLog := b.mainName, currentFile := b.mainName,
          bytesWritten := c.length } := by
    intro c h hc
    have : ¬ b.MaxSize ≤ c.length := by omega
    simp [startInit, hs, ho, h, this]
  have hC : ∀ c, b.fs b.mainName = some c → b.MaxSize ≤ c.length →
      startInit compress env b = rotate compress env.now
        { b with
          buckets := [], mainLog := b.mainName, currentFile := b.mainName,
          bytesWritten := c.length } := by
    intro c h hc
    simp [startInit, hs, ho, h, hc]
  have hR : ∀ c, b.fs b.mainName = some c →
      rotate compress env.now
        { b with
          buckets := [], mainLog := b.mainName, currentFile := b.mainName,
          bytesWritten := c.length } = _ :=
    fun c h => rotate_ok compress env.now _
      { b with
        buckets := [], mainLog := b.mainName, currentFile := b.mainName,
        bytesWritten := c.length } c
      (by simp [archive, hlock]) h
  refine ⟨?_, ?_, ?_, ?_⟩
  · intro h
    refine ⟨_, hA h, rfl, rfl, rfl, ?_, ?_, hlock⟩
    · simp [fsCreate, h]
    · intro p hp
      simp [fsCreate, hp]
  · intro c h hc
    exact ⟨_, hB c h hc, rfl, rfl, rfl, rfl, hlock⟩
  · intro c h hc
    refine ⟨hC c h hc, _, (hC c h hc).trans (hR c h), rfl, rfl, rfl, ?_⟩
    intro hp
    have hmn : ∀ i : Int, b.mainName ≠ b.numbered i b.LogExtension := mainName_ne_plain b hp
    have hmn' : ∀ i : Int, b.numbered i b.LogExtension ≠ b.mainName :=
      fun i => Ne.symm (hmn i)
    constructor
    · by_cases h0 : b.RotateCount = 0
      · simp [h0, fsRemove, fsCreate, hmn]
      · simp [h0, fsCreate, hmn]
    · by_cases h0 : b.RotateCount = 0
      · simp [h0, fsRemove]
      · simp [h0, fsCreate, hmn']
  · cases h : b.fs b.mainName with
    | none => exact ⟨_, hA h, rfl, Or.inl rfl⟩
    | some c =>
      by_cases hc : b.MaxSize ≤ c.length
      · exact ⟨_, (hC c h hc).trans (hR c h), rfl, Or.inl rfl⟩
      · exact ⟨_, hB c h (by omega), rfl, Or.inr (by show c.length < b.MaxSize; omega)⟩

/-- Witness of C9: start-up of the sample in the empty directory, and in a directory where the
file cannot be opened. -/
theorem C9_startup_witness :
    (sample.rotateSync = none ∧ quietStart.statErr = false ∧ quietStart.openErr = false) ∧
      (∃ b', startInit failedCompressor quietStart sample = .ok b' ∧ b'.bytesWritten = 0 ∧
        b'.fs sample.mainName = some []) ∧
      startInit failedCompressor { quietStart with openErr := true } sample =
        .error Failure.fatal := by
  refine ⟨⟨rfl, rfl, rfl⟩, ?_, ?_⟩
  · obtain ⟨b', h, hbw, _, _, hfs, _⟩ :=
      ((C9_startup failedCompressor quietStart sample rfl).2.2 rfl rfl).1 rfl
    exact ⟨b', h, hbw, hfs⟩
  · exact (C9_startup failedCompressor { quietStart with openErr := true } sample rfl).2.1
      rfl rfl

/-- C10 (amended): `ParseMaxSize` accepts a string exactly when it is a non-empty run of decimal
digits followed by nothing or by one of `b`, `k`, `m`, `g`; a rejected string gives 0; and an
accepted string whose number `n` is below `2^63` and whose product with the unit of the suffix
(1, 1024, 1024², 1024³) is below `2^64` gives that product. -/
theorem C10_ParseMaxSize (s : GoString) :
    ((ParseMaxSize s).2 = true ↔ SizeForm s) ∧
      ((ParseMaxSize s).2 = false → (ParseMaxSize s).1 = 0) ∧
      ∀ ds sfx : GoString, s = ds ++ sfx → ds ≠ [] → (∀ d ∈ ds, isDigit d = true) →
        (sfx = [] ∨ sfx = ascii "b" ∨ sfx = ascii "k" ∨ sfx = ascii "m" ∨ sfx = ascii "g") →
        decVal ds < 2 ^ 63 → decVal ds * unitBytes sfx < 2 ^ 64 →
        ParseMaxSize s = (decVal ds * unitBytes sfx, true) := by
  refine ⟨⟨ParseMaxSize_ok_form s, ?_⟩, ?_, ?_⟩
  · rintro ⟨ds, sfx, rfl, hne, hds, hs⟩
    rw [ParseMaxSize_of_form ds sfx hne hds hs]
  · intro h
    have key : ParseMaxSize s = (0, false) ∨ (ParseMaxSize s).2 = true := by
      unfold ParseMaxSize
      split
      · exact Or.inl rfl
      · split_ifs <;> simp
    rcases key with h0 | h1
    · rw [h0]
    · rw [h1] at h
      exact absurd h (by simp)
  · rintro ds sfx rfl hne hds hs hn hprod
    rw [ParseMaxSize_of_form ds sfx hne hds hs]
    have ha : atoi ds = decVal ds := by
      unfold atoi
      omega
    rw [ha, Nat.mod_eq_of_lt hprod]

/-- Witness of C10: the default `200m`. -/
theorem C10_ParseMaxSize_witness :
    (decVal (ascii "200") < 2 ^ 63 ∧ decVal (ascii "200") * unitBytes (ascii "m") < 2 ^ 64) ∧
      ParseMaxSize (ascii "200m") = (209715200, true) := by
  have h1 : decVal (ascii "200") < 2 ^ 63 := by decide
  have h2 : decVal (ascii "200") * unitBytes (ascii "m") < 2 ^ 64 := by decide
  refine ⟨⟨h1, h2⟩, ?_⟩
  rw [(C10_ParseMaxSize (ascii "200m")).2.2 (ascii "200") (ascii "m") (by decide) (by decide)
    (by decide) (by decide) h1 h2]
  decide

/-- Counterexample to C10 as stated: accepted strings whose value is not the number times the
unit.  `9223372036854775808` (2^63) comes back as 2^63 - 1, because `Atoi` saturates and its
error is dropped; `17179869184g` (2^34 · 1024³ = 2^64) comes back as 0, because the product wraps
in `uint64`. -/
theorem C10_fails_on_overflow :
    (ParseMaxSize (ascii "9223372036854775808") = (9223372036854775807, true) ∧
        decVal (ascii "9223372036854775808") * unitBytes [] = 9223372036854775808) ∧
      (ParseMaxSize (ascii "17179869184g") = (0, true) ∧
        decVal (ascii "17179869184") * unitBytes (ascii "g") = 18446744073709551616) := by
  decide

end Logbucket
